import Mathlib

/-!
Shallow embedding of `lib/traversal.js` (connect-traversal), a hierarchical
resource-traversal router.  JavaScript objects used as string-keyed maps are
modelled as association lists, absent (`null` / `undefined`) string arguments
as `Option String`, and thrown exceptions as `Except String`.
-/

/-- Association-list lookup, modelling JavaScript property access `obj[k]`
(`none` plays the role of `undefined`). -/
def lookupA {α : Type} : List (String × α) → String → Option α
  | [], _ => none
  | (k, v) :: rest, key => if k = key then some v else lookupA rest key

/-- Association-list update, modelling JavaScript property assignment
`obj[k] = v` (overwrites an existing binding, otherwise appends). -/
def insertA {α : Type} : List (String × α) → String → α → List (String × α)
  | [], key, v => [(key, v)]
  | (k, w) :: rest, key, v =>
    if k = key then (key, v) :: rest else (k, w) :: insertA rest key v

/-- JavaScript truthiness of an optional string: absent values and the empty
string are falsy, every other string is truthy. -/
def jsTruthy : Option String → Bool
  | some s => s != ""
  | none => false

/-- JavaScript `a || d` for an optional string `a`: the default `d` is taken
when `a` is absent or empty (falsy). -/
def jsOr (o : Option String) (d : String) : String :=
  match o with
  | some s => if s = "" then d else s
  | none => d

/-- ASCII lower-casing, modelling `toLowerCase` on the method strings the
router sees. -/
def jsToLower (s : String) : String := String.mk (s.toList.map Char.toLower)

/-- A JavaScript value passed as a path handler: either a function
(identified by a label) or a non-function value. -/
inductive JSArg : Type where
  | fn (label : String)
  | other (label : String)
deriving DecidableEq

/-- Models the `typeof fn` callable test of `registerResourcePath`. -/
def JSArg.isFn : JSArg → Bool
  | .fn _ => true
  | .other _ => false

/-- A resource instance (`Resource` in the source): `key`, `parent` and
`options` are set by the `Resource` constructor; `resource` is the type id
stamped on by the wrapper that `registerResource` builds; `child`, `children`
and `cvalid` (`childValidate`) are the fields that wrapper copies from the
registered prototype onto the prototype chain of its instances. -/
inductive RInstance : Type where
  | mk (resource : String) (key : Option String) (options : Option String)
       (child : Option String) (children : List (String × String))
       (cvalid : String → Bool) (parent : Option RInstance)

def RInstance.resource : RInstance → String
  | .mk r _ _ _ _ _ _ => r

def RInstance.key : RInstance → Option String
  | .mk _ k _ _ _ _ _ => k

def RInstance.options : RInstance → Option String
  | .mk _ _ o _ _ _ _ => o

def RInstance.child : RInstance → Option String
  | .mk _ _ _ c _ _ _ => c

def RInstance.children : RInstance → List (String × String)
  | .mk _ _ _ _ cs _ _ => cs

def RInstance.cvalid : RInstance → (String → Bool)
  | .mk _ _ _ _ _ cv _ => cv

def RInstance.parent : RInstance → Option RInstance
  | .mk _ _ _ _ _ _ p => p

/-- A registered resource-type definition (the `proto` argument of
`registerResource`, completed with the `Resource.prototype` defaults:
`childValidate` is the truthiness of the key, `init` is a no-op).  `initF`
maps the freshly constructed instance to the instance after the `init()`
hook has run. -/
structure RDef where
  child : Option String := none
  children : List (String × String) := []
  cvalid : String → Bool := fun k => k != ""
  initF : RInstance → RInstance := id

/-- `new factory(key, parent[, options])` for the wrapper that
`registerResource` builds: the constructor stamps the type id, stores
`(key, parent, options)` and the prototype fields, then runs the `init()`
hook exactly once on the fully constructed instance before returning it. -/
def instantiate (d : RDef) (id : String) (key : Option String)
    (parent : Option RInstance) (options : Option String) : RInstance :=
  d.initF (RInstance.mk id key options d.child d.children d.cvalid parent)

abbrev MethodMap := List (String × List JSArg)
abbrev ParentMap := List (String × MethodMap)
abbrev NameMap := List (String × ParentMap)
abbrev PathTable := List (String × NameMap)

/-- The `Traversal` object: resource-type registry, four-level path table and
root resource type.  `setRootResource` stores the registered factory itself,
so `root` keeps the id together with the definition it had when made root. -/
structure Traversal where
  resources : List (String × RDef) := []
  paths : PathTable := []
  root : Option (String × RDef) := none

def noResourceMsg (id : String) : String :=
  "there is no registered resource: " ++ id

def rootNotSetMsg : String := "root resource hasn\x27t been set yet."

def missingHandlersMsg : String := "registerPath() requires callback functions"

def invalidHandlerMsg : String :=
  "registerPath() requires callback functions of \x27function\x27 type"

def typeErrorMsg : String :=
  "TypeError: Cannot read property \x27resource\x27 of undefined"

def rootTypeErrorMsg : String := "TypeError: this.root is not a constructor"

/-- `Traversal.prototype.checkResource`: throws when `id` is unregistered. -/
def Traversal.checkResource (t : Traversal) (id : String) : Except String Unit :=
  if (lookupA t.resources id).isSome then .ok () else .error (noResourceMsg id)

/-- `checkResource` fused with the registry read `this.resources[id]` that
every caller performs right after it. -/
def Traversal.getResource (t : Traversal) (id : String) : Except String RDef :=
  match lookupA t.resources id with
  | some d => .ok d
  | none => .error (noResourceMsg id)

/-- `Traversal.prototype.registerResource` (re-registration overwrites). -/
def Traversal.registerResource (t : Traversal) (id : String) (d : RDef) : Traversal :=
  { t with resources := insertA t.resources id d }

/-- `Traversal.prototype.initResource`: out-of-band construction that returns
`null` (not an error) when `id` is not registered. -/
def Traversal.initResource (t : Traversal) (id : String) (key : Option String)
    (parent : Option RInstance) (options : Option String) : Option RInstance :=
  match lookupA t.resources id with
  | some d => some (instantiate d id key parent options)
  | none => none

/-- `Traversal.prototype.setRootResource`. -/
def Traversal.setRootResource (t : Traversal) (id : String) : Except String Traversal :=
  match lookupA t.resources id with
  | some d => .ok { t with root := some (id, d) }
  | none => .error (noResourceMsg id)

/-- `Traversal.prototype.clear`. -/
def Traversal.clear (_t : Traversal) : Traversal :=
  { resources := [], paths := [], root := none }

/-- The method key stored by `registerResourcePath`: the lower-cased method
when one is (truthily) supplied, and the wildcard `"all"` otherwise. -/
def methodKey (o : Option String) : String :=
  match o with
  | some m => if m = "" then "all" else jsToLower m
  | none => "all"

/-- The nested updates `paths[rid] = paths[rid] || {}`, …, ending in
`paths[rid][name][parent][method] = callbacks`. -/
def insert4 (table : PathTable) (rid nk pk mkey : String) (cbs : List JSArg) :
    PathTable :=
  let nm := (lookupA table rid).getD []
  let pb := (lookupA nm nk).getD []
  let mm := (lookupA pb pk).getD []
  insertA table rid (insertA nm nk (insertA pb pk (insertA mm mkey cbs)))

/-- Read of the four-level path table at an exact 4-tuple key. -/
def lookup4 (table : PathTable) (rid nk pk mkey : String) : Option (List JSArg) :=
  (lookupA table rid).bind fun nm =>
  (lookupA nm nk).bind fun pb =>
  (lookupA pb pk).bind fun mm =>
  lookupA mm mkey

/-- `Traversal.prototype.registerResourcePath`.  The JavaScript function takes
the handler callbacks as trailing arguments; thrown errors become
`Except.error`, and the checks run in source order: root set, target type
registered, truthily supplied parent type registered, at least one callback,
all callbacks callable. -/
def Traversal.registerResourcePath (t : Traversal) (resourceId : String)
    (opsName opsParent opsMethod : Option String) (callbacks : List JSArg) :
    Except String Traversal :=
  if t.root.isNone then .error rootNotSetMsg
  else match t.checkResource resourceId with
  | .error e => .error e
  | .ok () =>
    match (if jsTruthy opsParent then t.checkResource (opsParent.getD "") else .ok ()) with
    | .error e => .error e
    | .ok () =>
      if callbacks.isEmpty then .error missingHandlersMsg
      else if callbacks.all JSArg.isFn then
        .ok { t with
              paths := insert4 t.paths resourceId (jsOr opsName "index")
                         (jsOr opsParent "all") (methodKey opsMethod) callbacks }
      else .error invalidHandlerMsg

/-- JavaScript `x ? x : y` (and `x || y`) on optional values: keep `x` when it
is set, fall back to `y` otherwise. -/
def orFallback {α : Type} (x y : Option α) : Option α :=
  match x with
  | some v => some v
  | none => y

/-- `Traversal.prototype.getResourcePath`: a missing level returns null; the
name level is indexed with the name defaulted to `"index"`; the parent bucket
is the exact one if that property is set and the `"all"` bucket otherwise;
the result is the lower-cased method entry with the `"all"` entry as
fallback.  An absent `ops.parent` never hits a registered bucket. -/
def Traversal.getResourcePath (t : Traversal) (resourceId : String)
    (opsName opsParent : Option String) (opsMethod : String) :
    Option (List JSArg) :=
  (lookupA t.paths resourceId).bind fun nm =>
  (lookupA nm (jsOr opsName "index")).bind fun nameEntry =>
  (orFallback (opsParent.bind (lookupA nameEntry)) (lookupA nameEntry "all")).bind fun pb =>
  orFallback (lookupA pb (jsToLower opsMethod)) (lookupA pb "all")

/-- The method tier of the C4 lookup as the spec words it: method (lower-cased)
matched exactly, else the `"all"` fallback. -/
def methodTier (pb : MethodMap) (opsMethod : String) : Option (List JSArg) :=
  orFallback (lookupA pb (jsToLower opsMethod)) (lookupA pb "all")

/-- The C4 lookup written from the claim: the handler sequence of the most
specific match, degrading name → (exact, defaulting to `"index"`), then
parent → (exact, else the `"all"` bucket), then method → (lower-cased exact,
else `"all"`); null when nothing matches at the reached fallback level.
Defaulting of the name follows the JavaScript falsy test of the source: an
absent or empty name defaults. -/
def getResourcePathSpec (t : Traversal) (resourceId : String)
    (opsName opsParent : Option String) (opsMethod : String) :
    Option (List JSArg) :=
  (lookupA t.paths resourceId).bind fun nm =>
  (lookupA nm (jsOr opsName "index")).bind fun nameEntry =>
  match opsParent.bind (lookupA nameEntry) with
  | some pb => methodTier pb opsMethod
  | none =>
    match lookupA nameEntry "all" with
    | some pb => methodTier pb opsMethod
    | none => none

/-- `Resource.prototype.get`: resolve one path segment to a child instance.
The static `children` entry is consulted first (a falsy mapped id fails the
JavaScript truthiness test and falls through), then the dynamic `child` type
guarded by `childValidate`; `checkResource` makes an unregistered reference
throw; with no match the result is `null`. -/
def RInstance.get (self : RInstance) (t : Traversal) (key : String) :
    Except String (Option RInstance) :=
  if jsTruthy (lookupA self.children key) then
    match t.getResource ((lookupA self.children key).getD "") with
    | .ok d =>
      .ok (some (instantiate d ((lookupA self.children key).getD "")
                   (some key) (some self) none))
    | .error e => .error e
  else if jsTruthy self.child && self.cvalid key then
    match t.getResource (self.child.getD "") with
    | .ok d =>
      .ok (some (instantiate d (self.child.getD "") (some key) (some self) none))
    | .error e => .error e
  else .ok none

/-- The inner `_traverseTo` of `Resource.prototype.traverseTo`: first node on
the chain (the node itself included) whose type id matches, walking `parent`
links. -/
def travGo (rid : String) : RInstance → Option RInstance
  | .mk r k o c cs cv p =>
    if r == rid then some (.mk r k o c cs cv p)
    else
      match p with
      | some q => travGo rid q
      | none => none

/-- The node itself followed by its ancestors, nearest first. -/
def ancestry : RInstance → List RInstance
  | .mk r k o c cs cv p =>
    .mk r k o c cs cv p :: (match p with | some q => ancestry q | none => [])

/-- `Resource.prototype.traverseTo`: starts the walk at `this.parent`.  When
the instance has no parent the inner helper dereferences the `resource` field
of an absent value, which throws a TypeError in JavaScript. -/
def RInstance.traverseTo (self : RInstance) (rid : String) :
    Except String (Option RInstance) :=
  match self.parent with
  | some p => .ok (travGo rid p)
  | none => .error typeErrorMsg

/-- Splitting on the slash character with empty pieces dropped, modelling
`url.split` followed by the truthiness filter in `buildChain`. -/
def splitPathAux : List Char → List Char → List String
  | [], acc => if acc.isEmpty then [] else [String.mk acc.reverse]
  | ch :: rest, acc =>
    if ch = '/' then
      (if acc.isEmpty then splitPathAux rest []
       else String.mk acc.reverse :: splitPathAux rest [])
    else splitPathAux rest (ch :: acc)

def splitPath (url : String) : List String := splitPathAux url.toList []

/-- The recursive `_build` of `Traversal.prototype.buildChain`, returning the
leaf instance together with the `req.pathname` and `req.subpath` fields it
may set (`none` where the request field is left untouched). -/
def buildChainAux (t : Traversal) :
    List String → RInstance →
    Except String (RInstance × Option String × Option (List String))
  | [], inst => .ok (inst, none, none)
  | seg :: rest, inst =>
    match inst.get t seg with
    | .error e => .error e
    | .ok none => .ok (inst, some seg, some rest)
    | .ok (some c) => buildChainAux t rest c

/-- `Traversal.prototype.buildChain`: split the url on slashes dropping empty
segments, construct the root instance (`new this.root()`, which throws when
no root is set), then greedily consume segments left to right. -/
def Traversal.buildChain (t : Traversal) (url : String) :
    Except String (RInstance × Option String × Option (List String)) :=
  match t.root with
  | none => .error rootTypeErrorMsg
  | some (rid, d) => buildChainAux t (splitPath url) (instantiate d rid none none none)

/-- The recursive `_getKeyAndParent` of `buildResourceUrl`: the truthy keys on
the parent chain, collected in root-to-leaf order. -/
def keyParts : RInstance → List String
  | .mk _ k _ _ _ _ p =>
    (match p with | some q => keyParts q | none => []) ++
    (match k with | some s => if s != "" then [s] else [] | none => [])

/-- `Traversal.prototype.buildResourceUrl`: keys root to leaf, a truthily
supplied extra pathname appended, slash-joined and slash-prefixed. -/
def buildResourceUrl (resource : RInstance) (pathname : Option String) : String :=
  "/" ++ String.intercalate "/"
    (keyParts resource ++
      (match pathname with
       | some s => if s != "" then [s] else []
       | none => []))

abbrev Trace := List String
abbrev NextFn := Unit → Trace
abbrev Handler := NextFn → Trace

/-- The `_callback` loop of `traversal.middleware`, viewed as recursion over
the callback list: every callback except the last is handed the internal
continuation that advances to the next one, the last is handed the external
`next`. -/
def runCallbacks : List Handler → NextFn → Trace
  | [], next => next ()
  | [h], next => h next
  | h :: h2 :: rest, next => h (fun _ => runCallbacks (h2 :: rest) next)

/-- The dispatch decision of `traversal.middleware`: a found, non-empty
callback chain is run; otherwise control falls through to `next()`. -/
def dispatchCallbacks (callbacks : Option (List Handler)) (next : NextFn) : Trace :=
  match callbacks with
  | some cbs => if cbs.isEmpty then next () else runCallbacks cbs next
  | none => next ()

/-- An instrumented handler that records its label and then invokes the
continuation it received. -/
def recHandler (label : String) : Handler := fun next => label :: next ()

/-! ### Basic lemmas about the association-list model -/

theorem lookupA_insertA_self {α : Type} (l : List (String × α)) (k : String) (v : α) :
    lookupA (insertA l k v) k = some v := by
  induction l with
  | nil => simp [insertA, lookupA]
  | cons hd tl ih =>
    obtain ⟨k', w⟩ := hd
    by_cases h : k' = k
    · simp [insertA, lookupA, h]
    · simp [insertA, lookupA, h, ih]

theorem lookupA_mem {α : Type} {l : List (String × α)} {k : String} {v : α}
    (h : lookupA l k = some v) : (k, v) ∈ l := by
  induction l with
  | nil => simp [lookupA] at h
  | cons hd tl ih =>
    obtain ⟨k', w⟩ := hd
    by_cases hk : k' = k
    · subst hk
      simp [lookupA] at h
      simp [h]
    · simp [lookupA, hk] at h
      exact List.mem_cons_of_mem _ (ih h)

/-! ### Concrete fixtures used by witnesses and counterexamples -/

/-- A fresh `Traversal` (`new Traversal`). -/
def T0 : Traversal := {}

def numValidate (s : String) : Bool := s != "" && s.toList.all Char.isDigit

def rootDef : RDef := { children := [("users", "users")] }

def usersDef : RDef := { child := some "item", cvalid := numValidate }

def itemDef : RDef := {}

/-- The registry of the spec scenario: `users` is a static child of root, the
numeric-validated `item` type is the dynamic child of `users`, and `item` has
no children of its own. -/
def T1 : Traversal :=
  { resources := [("root", rootDef), ("users", usersDef), ("item", itemDef)],
    paths := [],
    root := some ("root", rootDef) }

def rootInst : RInstance := instantiate rootDef "root" none none none

def usersInst : RInstance := instantiate usersDef "users" (some "users") (some rootInst) none

def itemInst : RInstance := instantiate itemDef "item" (some "42") (some usersInst) none

/-! ### C3 — the middleware continuation chain -/

theorem runCallbacks_map_rec (names : List String) (F : NextFn) :
    runCallbacks (names.map recHandler) F = names ++ F () := by
  induction names with
  | nil => rfl
  | cons n rest ih =>
    cases rest with
    | nil => rfl
    | cons m rest2 =>
      calc runCallbacks ((n :: m :: rest2).map recHandler) F
          = n :: runCallbacks ((m :: rest2).map recHandler) F := rfl
        _ = n :: ((m :: rest2) ++ F ()) := by rw [ih]
        _ = (n :: m :: rest2) ++ F () := rfl

/-- Claim C3: for a matched handler sequence, every handler except the last
receives the internal continuation that invokes the next handler, the last
receives the external fallback directly, instrumented handlers therefore run
in registration order followed by the fallback, and an absent or empty
sequence passes control directly to the fallback. -/
theorem middleware_continuation_chain (names : List String) (F : NextFn)
    (h h2 : Handler) (rest : List Handler) :
    dispatchCallbacks (some (names.map recHandler)) F = names ++ F () ∧
    dispatchCallbacks none F = F () ∧
    dispatchCallbacks (some []) F = F () ∧
    runCallbacks (h :: h2 :: rest) F = h (fun _ => runCallbacks (h2 :: rest) F) ∧
    runCallbacks [h] F = h F := by
  refine ⟨?_, rfl, rfl, rfl, rfl⟩
  cases names with
  | nil => rfl
  | cons n rest2 =>
    simpa [dispatchCallbacks] using runCallbacks_map_rec (n :: rest2) F

/-! ### C4 — the path-table lookup degrades most-specific-first -/

/-- Claim C4: the source lookup returns the handler sequence of the most
specific match, degrading name (exact, defaulting to index), then parent
(exact, else the all bucket), then lower-cased method (exact, else all), and
returns null when nothing matches at the reached fallback level — stated as
equality with the claim-worded lookup. -/
theorem getResourcePath_degrades (t : Traversal) (resourceId : String)
    (opsName opsParent : Option String) (opsMethod : String) :
    t.getResourcePath resourceId opsName opsParent opsMethod =
      getResourcePathSpec t resourceId opsName opsParent opsMethod := by
  unfold Traversal.getResourcePath getResourcePathSpec methodTier
  cases lookupA t.paths resourceId with
  | none => rfl
  | some nm =>
    simp only [Option.some_bind]
    cases lookupA nm (jsOr opsName "index") with
    | none => rfl
    | some nameEntry =>
      simp only [Option.some_bind]
      cases opsParent.bind (lookupA nameEntry) with
      | some pb => rfl
      | none =>
        cases lookupA nameEntry "all" with
        | none => rfl
        | some pb => rfl

/-! ### C9 — initResource is silent on unknown ids -/

/-- Claim C9: for an unregistered id, initResource returns null rather than
raising, while the checkResource guard used by every other dereference of a
type id fails loudly on the same id. -/
theorem initResource_unregistered_silent (t : Traversal) (id : String)
    (key : Option String) (parent : Option RInstance) (options : Option String)
    (h : lookupA t.resources id = none) :
    t.initResource id key parent options = none ∧
    t.checkResource id = .error (noResourceMsg id) := by
  constructor
  · unfold Traversal.initResource
    rw [h]
  · unfold Traversal.checkResource
    rw [h]
    rfl

theorem initResource_unregistered_silent_witness :
    T0.initResource "ghost" none none none = none ∧
    T0.checkResource "ghost" = .error (noResourceMsg "ghost") :=
  initResource_unregistered_silent T0 "ghost" none none none rfl

/-! ### C10 — clear resets the root as well -/

/-- Claim C10: clear empties the registry and the path table and resets the
root to null, so a subsequent registerResourcePath call fails with the
RootNotSet error. -/
theorem clear_resets_everything (t : Traversal) (rid : String)
    (n p m : Option String) (cbs : List JSArg) :
    (t.clear).resources = [] ∧ (t.clear).paths = [] ∧ (t.clear).root = none ∧
    (t.clear).registerResourcePath rid n p m cbs = .error rootNotSetMsg :=
  ⟨rfl, rfl, rfl, rfl⟩

/-! ### Inversion lemmas for resource resolution -/

theorem getResource_ok_iff {t : Traversal} {id : String} {d : RDef} :
    t.getResource id = .ok d ↔ lookupA t.resources id = some d := by
  unfold Traversal.getResource
  cases h : lookupA t.resources id <;> simp

theorem get_ok_some_inv {t : Traversal} {self : RInstance} {key : String}
    {inst : RInstance} (h : self.get t key = .ok (some inst)) :
    ∃ cid d, lookupA t.resources cid = some d ∧
      inst = instantiate d cid (some key) (some self) none := by
  unfold RInstance.get at h
  split at h
  · split at h
    · rename_i d hd
      injection h with h1
      injection h1 with h2
      exact ⟨_, d, getResource_ok_iff.mp hd, h2.symm⟩
    · exact absurd h (by simp)
  · split at h
    · split at h
      · rename_i d hd
        injection h with h1
        injection h1 with h2
        exact ⟨_, d, getResource_ok_iff.mp hd, h2.symm⟩
      · exact absurd h (by simp)
    · exact absurd h (by simp)

/-! ### C6 — two-phase construct-then-init -/

/-- Claim C6: every match found by get instantiates the matched type with the
segment as key and the current instance as parent, and the init hook runs
exactly once, on the fully constructed record (key and parent already set),
before the instance is returned. -/
theorem get_constructs_then_inits (t : Traversal) (self : RInstance)
    (key : String) (inst : RInstance) (h : self.get t key = .ok (some inst)) :
    ∃ cid d, lookupA t.resources cid = some d ∧
      inst = d.initF (RInstance.mk cid (some key) none d.child d.children
                        d.cvalid (some self)) := by
  obtain ⟨cid, d, hr, he⟩ := get_ok_some_inv h
  exact ⟨cid, d, hr, he⟩

theorem get_constructs_then_inits_witness :
    ∃ cid d, lookupA T1.resources cid = some d ∧
      usersInst = d.initF (RInstance.mk cid (some "users") none d.child
                             d.children d.cvalid (some rootInst)) :=
  get_constructs_then_inits T1 rootInst "users" usersInst rfl

/-! ### C2 — resolution order of get -/

def emptyIdDef : RDef := {}

/-- A registry in which the empty string is itself a registered type id. -/
def T2 : Traversal :=
  { resources := [("", emptyIdDef)], paths := [], root := none }

/-- An instance whose type maps the literal segment "x" to the registered
(but falsy) type id "". -/
def selfC2 : RInstance :=
  RInstance.mk "r" none none none [("x", "")] (fun k => k != "") none

/-- Claim C2 counterexample: the children map contains the segment "x" as a
literal key and its mapped type id (the empty string) is registered, yet get
resolves to null — the source tests the truthiness of the mapped id, not key
containment, so a falsy mapped id silently falls through. -/
theorem get_children_falsy_counterexample :
    lookupA selfC2.children "x" = some "" ∧
    (lookupA T2.resources "").isSome = true ∧
    selfC2.get T2 "x" = .ok none :=
  ⟨rfl, rfl, rfl⟩

/-- Claim C2 (amended): get resolves in this order — a literal children entry
with a non-empty (truthy) mapped id wins; else a non-empty dynamic child type
whose childValidate accepts the segment; else null. -/
theorem get_resolution_order (t : Traversal) (self : RInstance) (key : String) :
    (∀ cid d, lookupA self.children key = some cid → cid ≠ "" →
        lookupA t.resources cid = some d →
        self.get t key = .ok (some (instantiate d cid (some key) (some self) none))) ∧
    (∀ cid d, jsTruthy (lookupA self.children key) = false → self.child = some cid →
        cid ≠ "" → self.cvalid key = true → lookupA t.resources cid = some d →
        self.get t key = .ok (some (instantiate d cid (some key) (some self) none))) ∧
    (jsTruthy (lookupA self.children key) = false →
        (jsTruthy self.child && self.cvalid key) = false →
        self.get t key = .ok none) := by
  refine ⟨?_, ?_, ?_⟩
  · intro cid d hl hne hr
    unfold RInstance.get
    rw [hl]
    have hd : t.getResource cid = .ok d := getResource_ok_iff.mpr hr
    simp [jsTruthy, hne, hd]
  · intro cid d hf hc hne hv hr
    unfold RInstance.get
    rw [hf, hc]
    have hd : t.getResource cid = .ok d := getResource_ok_iff.mpr hr
    simp [jsTruthy, hne, hv, hd]
  · intro hf1 hf2
    unfold RInstance.get
    rw [hf1, hf2]
    simp

theorem get_resolution_order_witness :
    rootInst.get T1 "users" =
      .ok (some (instantiate usersDef "users" (some "users") (some rootInst) none)) :=
  (get_resolution_order T1 rootInst "users").1 "users" usersDef rfl (by decide) rfl

/-! ### C7 — traverseTo -/

theorem travGo_mk_some (rid r : String) (k o c : Option String)
    (cs : List (String × String)) (cv : String → Bool) (q : RInstance) :
    travGo rid (.mk r k o c cs cv (some q)) =
      if r == rid then some (.mk r k o c cs cv (some q)) else travGo rid q := rfl

theorem travGo_mk_none (rid r : String) (k o c : Option String)
    (cs : List (String × String)) (cv : String → Bool) :
    travGo rid (.mk r k o c cs cv none) =
      if r == rid then some (.mk r k o c cs cv none) else none := rfl

theorem ancestry_mk_some (r : String) (k o c : Option String)
    (cs : List (String × String)) (cv : String → Bool) (q : RInstance) :
    ancestry (.mk r k o c cs cv (some q)) = .mk r k o c cs cv (some q) :: ancestry q := rfl

theorem ancestry_mk_none (r : String) (k o c : Option String)
    (cs : List (String × String)) (cv : String → Bool) :
    ancestry (.mk r k o c cs cv none) = [.mk r k o c cs cv none] := rfl

theorem travGo_eq_find (rid : String) :
    ∀ (inst : RInstance),
      travGo rid inst = (ancestry inst).find? (fun a => a.resource == rid)
  | .mk r k o c cs cv p => by
    by_cases h : r == rid
    · cases p with
      | some q => simp [travGo_mk_some, ancestry_mk_some, List.find?, RInstance.resource, h]
      | none => simp [travGo_mk_none, ancestry_mk_none, List.find?, RInstance.resource, h]
    · cases p with
      | some q =>
        have ih := travGo_eq_find rid q
        simp [travGo_mk_some, ancestry_mk_some, List.find?, RInstance.resource, h, ih]
      | none => simp [travGo_mk_none, ancestry_mk_none, List.find?, RInstance.resource, h]

/-- Claim C7 counterexample: on an instance with no parent at all, traverseTo
does not return null — the source dereferences the resource field of an
absent parent, which throws a TypeError. -/
theorem traverseTo_no_parent_counterexample :
    rootInst.traverseTo "root" = .error typeErrorMsg ∧
    rootInst.traverseTo "root" ≠ .ok none := by
  refine ⟨rfl, ?_⟩
  intro hcontra
  rw [show rootInst.traverseTo "root" = .error typeErrorMsg from rfl] at hcontra
  exact Except.noConfusion hcontra

/-- Claim C7 (amended): traverseTo walks the parent chain upward starting from
the parent (never matching the instance itself) and returns the first ancestor
whose type id matches, or null when the chain is exhausted without a match; it
is pure, so repeated calls return the same result; but when the instance has
no parent at all it throws a TypeError instead of returning null. -/
theorem traverseTo_first_matching_ancestor (self p : RInstance) (rid : String) :
    (self.parent = some p →
        self.traverseTo rid =
          .ok ((ancestry p).find? (fun a => a.resource == rid))) ∧
    (self.parent = none → self.traverseTo rid = .error typeErrorMsg) := by
  constructor
  · intro hp
    unfold RInstance.traverseTo
    rw [hp]
    show Except.ok (travGo rid p) = _
    rw [travGo_eq_find]
  · intro hp
    unfold RInstance.traverseTo
    rw [hp]

theorem traverseTo_first_matching_ancestor_witness :
    itemInst.traverseTo "root" = .ok (some rootInst) := by
  have h := (traverseTo_first_matching_ancestor itemInst usersInst "root").1 rfl
  rw [h]
  rfl

/-! ### C1 — greedy chain building -/

/-- Greedy consumption: walking from `inst` through `segs` by successful get
calls reaches `leaf`. -/
inductive Consumes (t : Traversal) : RInstance → List String → RInstance → Prop where
  | nil (inst : RInstance) : Consumes t inst [] inst
  | cons {inst c leaf : RInstance} {seg : String} {rest : List String} :
      inst.get t seg = .ok (some c) → Consumes t c rest leaf →
      Consumes t inst (seg :: rest) leaf

theorem buildChainAux_sound (t : Traversal) :
    ∀ (segs : List String) (inst leaf : RInstance) (pn : Option String)
      (sp : Option (List String)),
      buildChainAux t segs inst = .ok (leaf, pn, sp) →
      (pn = none ∧ sp = none ∧ Consumes t inst segs leaf) ∨
      (∃ seg rest pre, pn = some seg ∧ sp = some rest ∧
          segs = pre ++ seg :: rest ∧ Consumes t inst pre leaf ∧
          leaf.get t seg = .ok none) := by
  intro segs
  induction segs with
  | nil =>
    intro inst leaf pn sp h
    simp only [buildChainAux] at h
    obtain ⟨h1, h2, h3⟩ : inst = leaf ∧ none = pn ∧ none = sp := by
      simpa using h
    exact Or.inl ⟨h2.symm, h3.symm, h1 ▸ Consumes.nil inst⟩
  | cons seg rest ih =>
    intro inst leaf pn sp h
    simp only [buildChainAux] at h
    split at h
    · exact absurd h (by simp)
    · rename_i hg
      obtain ⟨h1, h2, h3⟩ : inst = leaf ∧ some seg = pn ∧ some rest = sp := by
        simpa using h
      refine Or.inr ⟨seg, rest, [], h2.symm, h3.symm, rfl, ?_, ?_⟩
      · exact h1 ▸ Consumes.nil inst
      · exact h1 ▸ hg
    · rename_i c hg
      rcases ih c leaf pn sp h with ⟨h1, h2, hc⟩ | ⟨s2, r2, pre, h1, h2, h3, hc, hl⟩
      · exact Or.inl ⟨h1, h2, Consumes.cons hg hc⟩
      · exact Or.inr ⟨s2, r2, seg :: pre, h1, h2, by simp [h3], Consumes.cons hg hc, hl⟩

/-- Claim C1: buildChain splits the request path on slashes dropping empty
segments, constructs the root instance, and greedily consumes segments left to
right via get; at the first segment with no match it stops immediately,
records that segment and all remaining segments as the unresolved subpath,
and returns the current instance; when all segments are consumed it returns
the last matched instance. -/
theorem buildChain_sound (t : Traversal) (url rid : String) (d : RDef)
    (leaf : RInstance) (pn : Option String) (sp : Option (List String))
    (hroot : t.root = some (rid, d))
    (h : t.buildChain url = .ok (leaf, pn, sp)) :
    (pn = none ∧ sp = none ∧
        Consumes t (instantiate d rid none none none) (splitPath url) leaf) ∨
    (∃ seg rest pre, pn = some seg ∧ sp = some rest ∧
        splitPath url = pre ++ seg :: rest ∧
        Consumes t (instantiate d rid none none none) pre leaf ∧
        leaf.get t seg = .ok none) := by
  unfold Traversal.buildChain at h
  rw [hroot] at h
  exact buildChainAux_sound t (splitPath url) _ leaf pn sp h

/-- The spec scenario for C1: on the path with segments users, 42, edit the
traversal returns the 42 item instance as leaf, with the unmatched segment
edit recorded and an empty remainder. -/
theorem buildChain_sound_witness :
    ((some "edit" = (none : Option String)) ∧ (some ([] : List String) = none) ∧
        Consumes T1 (instantiate rootDef "root" none none none)
          (splitPath "/users/42/edit") itemInst) ∨
    (∃ seg rest pre, some "edit" = some seg ∧ some ([] : List String) = some rest ∧
        splitPath "/users/42/edit" = pre ++ seg :: rest ∧
        Consumes T1 (instantiate rootDef "root" none none none) pre itemInst ∧
        itemInst.get T1 seg = .ok none) :=
  buildChain_sound T1 "/users/42/edit" "root" rootDef itemInst (some "edit")
    (some []) rfl rfl

/-! ### C5 — registerResourcePath validation and storage -/

theorem lookup4_insert4 (table : PathTable) (rid nk pk mkey : String)
    (cbs : List JSArg) :
    lookup4 (insert4 table rid nk pk mkey cbs) rid nk pk mkey = some cbs := by
  simp [lookup4, insert4, lookupA_insertA_self]

/-- Claim C5: registerResourcePath fails with an error exactly when the root
is unset (RootNotSet), the target or a truthily supplied parent type is
unregistered (UnregisteredResource), no handlers are supplied
(MissingHandlers), or a handler is not callable (InvalidHandlerType); with
all preconditions met it stores the handler sequence at the 4-tuple key
(name defaulted to index, parent defaulted to all, method lower-cased or
defaulted to all). -/
theorem registerResourcePath_validates (t : Traversal) (rid : String)
    (n p m : Option String) (cbs : List JSArg) :
    (t.root = none → t.registerResourcePath rid n p m cbs = .error rootNotSetMsg) ∧
    (t.root ≠ none → lookupA t.resources rid = none →
        t.registerResourcePath rid n p m cbs = .error (noResourceMsg rid)) ∧
    (t.root ≠ none → (lookupA t.resources rid).isSome = true → jsTruthy p = true →
        lookupA t.resources (p.getD "") = none →
        t.registerResourcePath rid n p m cbs = .error (noResourceMsg (p.getD ""))) ∧
    (t.root ≠ none → (lookupA t.resources rid).isSome = true →
        (jsTruthy p = true → (lookupA t.resources (p.getD "")).isSome = true) →
        cbs = [] → t.registerResourcePath rid n p m cbs = .error missingHandlersMsg) ∧
    (t.root ≠ none → (lookupA t.resources rid).isSome = true →
        (jsTruthy p = true → (lookupA t.resources (p.getD "")).isSome = true) →
        cbs ≠ [] → cbs.all JSArg.isFn = false →
        t.registerResourcePath rid n p m cbs = .error invalidHandlerMsg) ∧
    (t.root ≠ none → (lookupA t.resources rid).isSome = true →
        (jsTruthy p = true → (lookupA t.resources (p.getD "")).isSome = true) →
        cbs ≠ [] → cbs.all JSArg.isFn = true →
        t.registerResourcePath rid n p m cbs =
          .ok { t with paths := insert4 t.paths rid (jsOr n "index") (jsOr p "all")
                         (methodKey m) cbs } ∧
        lookup4 (insert4 t.paths rid (jsOr n "index") (jsOr p "all") (methodKey m) cbs)
          rid (jsOr n "index") (jsOr p "all") (methodKey m) = some cbs) := by
  refine ⟨?_, ?_, ?_, ?_, ?_, ?_⟩
  · intro h0
    unfold Traversal.registerResourcePath
    rw [h0]
    rfl
  · intro h0 h1
    cases hr : t.root with
    | none => exact absurd hr h0
    | some v =>
      unfold Traversal.registerResourcePath Traversal.checkResource
      simp [hr, h1]
  · intro h0 h1 hp hpn
    cases hr : t.root with
    | none => exact absurd hr h0
    | some v =>
      unfold Traversal.registerResourcePath Traversal.checkResource
      simp [hr, h1, hp, hpn]
  · intro h0 h1 hpr hcbs
    subst hcbs
    cases hr : t.root with
    | none => exact absurd hr h0
    | some v =>
      unfold Traversal.registerResourcePath Traversal.checkResource
      cases hjp : jsTruthy p with
      | false => simp [hr, h1, hjp]
      | true => simp [hr, h1, hjp, hpr hjp]
  · intro h0 h1 hpr hne hbad
    cases hr : t.root with
    | none => exact absurd hr h0
    | some v =>
      unfold Traversal.registerResourcePath Traversal.checkResource
      cases hjp : jsTruthy p with
      | false => simp [hr, h1, hjp, hne, hbad]
      | true => simp [hr, h1, hjp, hpr hjp, hne, hbad]
  · intro h0 h1 hpr hne hall
    refine ⟨?_, lookup4_insert4 t.paths rid (jsOr n "index") (jsOr p "all") (methodKey m) cbs⟩
    cases hr : t.root with
    | none => exact absurd hr h0
    | some v =>
      unfold Traversal.registerResourcePath Traversal.checkResource
      cases hjp : jsTruthy p with
      | false => simp [hr, h1, hjp, hne, hall]
      | true => simp [hr, h1, hjp, hpr hjp, hne, hall]

theorem registerResourcePath_validates_witness :
    T1.registerResourcePath "users" none none (some "GET") [.fn "h1", .fn "h2"] =
      .ok { T1 with paths := insert4 T1.paths "users" (jsOr none "index")
                      (jsOr none "all") (methodKey (some "GET")) [.fn "h1", .fn "h2"] } ∧
    lookup4 (insert4 T1.paths "users" (jsOr none "index") (jsOr none "all")
        (methodKey (some "GET")) [.fn "h1", .fn "h2"])
      "users" (jsOr none "index") (jsOr none "all") (methodKey (some "GET")) =
      some [.fn "h1", .fn "h2"] :=
  (registerResourcePath_validates T1 "users" none none (some "GET")
      [.fn "h1", .fn "h2"]).2.2.2.2.2
    (fun h => Option.noConfusion h) rfl (fun h => Bool.noConfusion h)
    (fun h => List.noConfusion h) rfl

/-! ### C8 — URL reconstruction round-trips with chain building -/

theorem keyParts_mk_some (r : String) (k o c : Option String)
    (cs : List (String × String)) (cv : String → Bool) (q : RInstance) :
    keyParts (.mk r k o c cs cv (some q)) =
      keyParts q ++
        (match k with | some s => if s != "" then [s] else [] | none => []) := rfl

theorem keyParts_mk_none (r : String) (k o c : Option String)
    (cs : List (String × String)) (cv : String → Bool) :
    keyParts (.mk r k o c cs cv none) =
      (match k with | some s => if s != "" then [s] else [] | none => []) := rfl

/-- The init hook preserves the constructor-set key and parent. -/
def KPPreserving (f : RInstance → RInstance) : Prop :=
  ∀ x, (f x).key = x.key ∧ (f x).parent = x.parent

/-- Every registered init hook, and the hook of the root snapshot, preserves
key and parent — the sense in which every consumed segment stays a
key-bearing child. -/
def InitPreserving (t : Traversal) : Prop :=
  (∀ e ∈ t.resources, KPPreserving e.2.initF) ∧
  (∀ rid d, t.root = some (rid, d) → KPPreserving d.initF)

theorem keyParts_of_key_parent {inst prev : RInstance} {s : String}
    (hk : inst.key = some s) (hs : s ≠ "") (hp : inst.parent = some prev) :
    keyParts inst = keyParts prev ++ [s] := by
  cases inst with
  | mk r k o c cs cv p =>
    simp only [RInstance.key] at hk
    simp only [RInstance.parent] at hp
    subst hk
    subst hp
    simp [keyParts_mk_some, hs]

theorem keyParts_of_no_key_parent {inst : RInstance} (hk : inst.key = none)
    (hp : inst.parent = none) : keyParts inst = [] := by
  cases inst with
  | mk r k o c cs cv p =>
    simp only [RInstance.key] at hk
    simp only [RInstance.parent] at hp
    subst hk
    subst hp
    rfl

theorem stringMk_reverse_ne_empty {acc : List Char} (h : acc.isEmpty = false) :
    String.mk acc.reverse ≠ "" := by
  intro hcontra
  have hd : acc.reverse = [] := congrArg String.data hcontra
  have hnil : acc = [] := by simpa using hd
  simp [hnil] at h

theorem splitPathAux_mem_ne_empty :
    ∀ (l acc : List Char) (s : String), s ∈ splitPathAux l acc → s ≠ "" := by
  intro l
  induction l with
  | nil =>
    intro acc s hs
    simp only [splitPathAux] at hs
    split at hs
    · simp at hs
    · rename_i hacc
      simp at hs
      subst hs
      exact stringMk_reverse_ne_empty (by simpa using hacc)
  | cons ch rest ih =>
    intro acc s hs
    simp only [splitPathAux] at hs
    split at hs
    · split at hs
      · exact ih [] s hs
      · rename_i hacc
        simp at hs
        rcases hs with hs | hs
        · subst hs
          exact stringMk_reverse_ne_empty (by simpa using hacc)
        · exact ih [] s hs
    · exact ih (ch :: acc) s hs

theorem splitPath_mem_ne_empty (url : String) (s : String)
    (hs : s ∈ splitPath url) : s ≠ "" :=
  splitPathAux_mem_ne_empty url.toList [] s hs

theorem buildChainAux_keyParts (t : Traversal)
    (hpres : ∀ e ∈ t.resources, KPPreserving e.2.initF) :
    ∀ (segs : List String) (inst leaf : RInstance),
      (∀ s ∈ segs, s ≠ "") →
      buildChainAux t segs inst = .ok (leaf, none, none) →
      keyParts leaf = keyParts inst ++ segs := by
  intro segs
  induction segs with
  | nil =>
    intro inst leaf _ h
    simp only [buildChainAux] at h
    obtain ⟨h1, -, -⟩ : inst = leaf ∧ (none : Option String) = none ∧
        (none : Option (List String)) = none := by simpa using h
    simp [h1]
  | cons seg rest ih =>
    intro inst leaf hne h
    simp only [buildChainAux] at h
    split at h
    · exact absurd h (by simp)
    · exact absurd h (by simp)
    · rename_i c hg
      obtain ⟨cid, d, hr, he⟩ := get_ok_some_inv hg
      have hkp : KPPreserving d.initF := hpres (cid, d) (lookupA_mem hr)
      have hck : c.key = some seg := by
        rw [he]
        have hx := (hkp (RInstance.mk cid (some seg) none d.child d.children
          d.cvalid (some inst))).1
        simpa [instantiate, RInstance.key] using hx
      have hcp : c.parent = some inst := by
        rw [he]
        have hx := (hkp (RInstance.mk cid (some seg) none d.child d.children
          d.cvalid (some inst))).2
        simpa [instantiate, RInstance.parent] using hx
      have hkc : keyParts c = keyParts inst ++ [seg] :=
        keyParts_of_key_parent hck (hne seg (by simp)) hcp
      have hrest := ih c leaf (fun s hs => hne s (by simp [hs])) h
      rw [hrest, hkc]
      simp

/-- Claim C8: for a resource tree in which every consumed segment stays a
key-bearing child (the init hooks preserve key and parent), building the
chain from a canonical slash-joined path that is fully consumed and then
reconstructing the URL from the leaf instance yields the original path. -/
theorem buildChain_buildResourceUrl_roundtrip (t : Traversal) (url : String)
    (segs : List String) (leaf : RInstance)
    (hpres : InitPreserving t)
    (hsplit : splitPath url = segs)
    (hurl : url = "/" ++ String.intercalate "/" segs)
    (h : t.buildChain url = .ok (leaf, none, none)) :
    buildResourceUrl leaf none = url := by
  unfold Traversal.buildChain at h
  cases hr : t.root with
  | none =>
    rw [hr] at h
    exact absurd h (by simp)
  | some v =>
    obtain ⟨rid, d⟩ := v
    rw [hr] at h
    have hrootkp : KPPreserving d.initF := hpres.2 rid d hr
    have hrk : (instantiate d rid none none none).key = none := by
      have hx := (hrootkp (RInstance.mk rid none none d.child d.children
        d.cvalid none)).1
      simpa [instantiate] using hx
    have hrp : (instantiate d rid none none none).parent = none := by
      have hx := (hrootkp (RInstance.mk rid none none d.child d.children
        d.cvalid none)).2
      simpa [instantiate] using hx
    have hroot0 : keyParts (instantiate d rid none none none) = [] :=
      keyParts_of_no_key_parent hrk hrp
    have hne : ∀ s ∈ segs, s ≠ "" := by
      intro s hs
      rw [← hsplit] at hs
      exact splitPath_mem_ne_empty url s hs
    rw [hsplit] at h
    have hkp := buildChainAux_keyParts t hpres.1 segs _ leaf hne h
    rw [hroot0] at hkp
    simp only [List.nil_append] at hkp
    simp [buildResourceUrl, hkp, hurl]

theorem buildChain_buildResourceUrl_roundtrip_witness :
    buildResourceUrl itemInst none = "/users/42" := by
  have hpres : InitPreserving T1 := by
    constructor
    · intro e he x
      simp only [T1] at he
      simp at he
      rcases he with he | he | he <;> subst he <;> exact ⟨rfl, rfl⟩
    · intro rid d hr x
      simp only [T1] at hr
      simp at hr
      rw [← hr.2]
      exact ⟨rfl, rfl⟩
  exact buildChain_buildResourceUrl_roundtrip T1 "/users/42" ["users", "42"]
    itemInst hpres rfl rfl rfl
